import Mathlib

/-!
Shallow embedding of `src/gcsf/file_manager.rs` (the gcsf inode/tree
manager) together with the external structures it manipulates:

* Rust `HashMap` is modelled by `GCSF.HMap`, an association list whose
  `insert` replaces any previous binding of the key, matching
  `HashMap::insert` / `get` / `contains_key` observational behaviour.
* The `id_tree::Tree<Inode>` is modelled by `GCSF.IdTree`: an arena of
  nodes addressed by their index (`NodeId` is the arena index; gcsf never
  removes nodes, so id_tree generation counters are constant and elided).
  `InsertBehavior::UnderNode` appends a child to the parent's child list;
  `InsertBehavior::AsRoot` makes the fresh node the root and, when a root
  already existed, reattaches the old root as the first child of the new
  root (id_tree's documented `set_root` behaviour).
* Rust panics (`unwrap` on `None`, invalid tree ids) are modelled by the
  surrounding operation returning `none`: no successor state exists.
-/

set_option maxHeartbeats 1000000

namespace GCSF

/-- Model of `std::collections::HashMap`: an association list whose
`insert` erases the previous binding of the key before consing the new
one, so `get?` behaves exactly like `HashMap::get`. -/
abbrev HMap (K V : Type) := List (K × V)

/-- `HashMap::get` -/
def HMap.get? {K V : Type} [DecidableEq K] : HMap K V → K → Option V
  | [], _ => none
  | (k, v) :: t, a => if k = a then some v else HMap.get? t a

/-- remove every binding of key `a` (helper for `insert`) -/
def HMap.eraseKey {K V : Type} [DecidableEq K] : HMap K V → K → HMap K V
  | [], _ => []
  | (k, v) :: t, a => if k = a then HMap.eraseKey t a else (k, v) :: HMap.eraseKey t a

/-- `HashMap::insert` (the returned old value is never used by gcsf) -/
def HMap.insert {K V : Type} [DecidableEq K] (m : HMap K V) (a : K) (b : V) : HMap K V :=
  (a, b) :: m.eraseKey a

/-- `HashMap::contains_key` -/
def HMap.containsKey {K V : Type} [DecidableEq K] (m : HMap K V) (a : K) : Bool :=
  (m.get? a).isSome

/-- the key set of the map, as a list -/
def HMap.keys {K V : Type} (m : HMap K V) : List K :=
  m.map Prod.fst

/-- an upper bound for the `Nat`-valued keys of a map -/
def HMap.maxKey {V : Type} (m : HMap Nat V) : Nat :=
  m.foldr (fun p acc => max p.1 acc) 0

/-- `fuse::FileType`: gcsf only uses these two variants. -/
inductive FileType where
  | RegularFile : FileType
  | Directory : FileType
deriving DecidableEq, Repr

/-- `time::Timespec` -/
structure Timespec where
  sec : Int
  nsec : Int
deriving DecidableEq, Repr

/-- `fuse::FileAttr`, with the fields `new_root_file` populates. -/
structure FileAttr where
  ino : Nat
  size : Nat
  blocks : Nat
  atime : Timespec
  mtime : Timespec
  ctime : Timespec
  crtime : Timespec
  kind : FileType
  perm : Nat
  nlink : Nat
  uid : Nat
  gid : Nat
  rdev : Nat
  flags : Nat
deriving DecidableEq, Repr

/-- `drive3::File` restricted to the only field `file_manager.rs` reads or
writes (`id`); the remaining drive metadata is irrelevant to the manager. -/
structure DriveFile3 where
  id : Option String
deriving DecidableEq, Repr

/-- The gcsf `File` entity: the field set is the one the struct literal in
`new_root_file` exhibits (`name`, `attr`, `drive_file`). -/
structure File where
  name : String
  attr : FileAttr
  drive_file : Option DriveFile3
deriving DecidableEq, Repr

/-- Modelled from the spec: `File::inode` (file.rs is outside src/) — the
"local numeric identity" of the entity, i.e. `attr.ino`. -/
def File.inode (f : File) : Nat :=
  f.attr.ino

/-- Modelled from the spec: `File::kind` — the kind stored in the
POSIX-style attributes. -/
def File.kind (f : File) : FileType :=
  f.attr.kind

/-- Modelled from the spec: `File::drive_id` — the optional remote ID of
the remote descriptor (`drive_file` and its `id` must both be present). -/
def File.drive_id (f : File) : Option String :=
  f.drive_file.bind (fun d => d.id)

/-- Modelled from the spec: `File::set_drive_id` — "attach the returned
remote ID to the File entity": store it as the remote descriptor's id. -/
def File.set_drive_id (f : File) (did : String) : File :=
  { f with drive_file := some { id := some did } }

/-- A remote listing entry, modelled from the spec: "each entry
convertible to a File's metadata and optional nested-container flag". -/
structure DriveEntry where
  entryName : String
  entryId : Option String
  isDir : Bool
deriving DecidableEq, Repr

/-- Modelled from the spec: `File::from_drive_file` — "allocate a fresh
inode, build a File entity from the remote listing entry". -/
def File.from_drive_file (ino : Nat) (e : DriveEntry) : File :=
  { name := e.entryName
    attr :=
      { ino := ino
        size := 0
        blocks := 0
        atime := ⟨0, 0⟩
        mtime := ⟨0, 0⟩
        ctime := ⟨0, 0⟩
        crtime := ⟨0, 0⟩
        kind := if e.isDir then FileType.Directory else FileType.RegularFile
        perm := 0o644
        nlink := 1
        uid := 0
        gid := 0
        rdev := 0
        flags := 0 }
    drive_file := some { id := e.entryId } }

/-- One arena slot of the `id_tree` model. -/
structure TreeNode where
  data : Nat
  parent : Option Nat
  children : List Nat
deriving DecidableEq, Repr

/-- Model of `id_tree::Tree<Inode>`: an arena plus the index of the root.
gcsf never removes nodes, so slots are never freed. -/
structure IdTree where
  nodes : List TreeNode
  rootIdx : Option Nat
deriving DecidableEq, Repr

/-- the empty tree (`TreeBuilder::new().build()`; capacity is irrelevant) -/
def IdTree.empty : IdTree :=
  { nodes := [], rootIdx := none }

/-- `Tree::get`: `Ok` exactly when the id denotes an arena slot. -/
def IdTree.get (t : IdTree) (i : Nat) : Option TreeNode :=
  t.nodes[i]?

/-- `Tree::insert(Node::new d, UnderNode parent)`: fails (`Err`) if the
parent id is invalid; otherwise appends a fresh node whose parent is
`pid` and registers it at the end of the parent's child list. Returns the
new `NodeId` (the fresh arena index) and the updated tree. -/
def IdTree.insertUnder (t : IdTree) (d : Nat) (pid : Nat) : Option (Nat × IdTree) :=
  match t.nodes[pid]? with
  | none => none
  | some pn =>
    let nid := t.nodes.length
    some (nid,
      { nodes := (t.nodes.set pid { pn with children := pn.children ++ [nid] })
          ++ [{ data := d, parent := some pid, children := [] }]
        rootIdx := t.rootIdx })

/-- `Tree::insert(Node::new d, AsRoot)`: the fresh node becomes the root;
if a root already existed it is reattached as the first (only) child of
the new root and its parent pointer is redirected to the new root. -/
def IdTree.insertAsRoot (t : IdTree) (d : Nat) : Nat × IdTree :=
  let nid := t.nodes.length
  let reparented :=
    match t.rootIdx with
    | none => t.nodes
    | some r =>
      match t.nodes[r]? with
      | none => t.nodes
      | some rn => t.nodes.set r { rn with parent := some nid }
  let oldRootChildren :=
    match t.rootIdx with
    | none => ([] : List Nat)
    | some r => [r]
  (nid,
    { nodes := reparented ++ [{ data := d, parent := none, children := oldRootChildren }]
      rootIdx := some nid })

/-- `Tree::children(&node_id)`: the child ids of a slot, in order. -/
def IdTree.childrenOf (t : IdTree) (i : Nat) : Option (List Nat) :=
  (t.nodes[i]?).map (fun nd => nd.children)

/-- `FileId` (the four-variant lookup key of the Identifier Resolver);
`NodeId` carries the arena index of the tree model. -/
inductive FileId where
  | Inode : Nat → FileId
  | DriveId : String → FileId
  | NodeId : Nat → FileId
  | ParentAndName : Nat → String → FileId
deriving DecidableEq, Repr

/-- Modelled from the spec: the `DriveFacade` external collaborator
(drive_facade.rs is outside src/), at its interface boundary (§6):
`root_id`, `list_children`, `create -> remote_id`, `write`. The ids the
remote service assigns to successive `create` calls are an arbitrary
stream `supply`; `createLog`/`writeLog` record the calls made, newest
last, so that theorems can speak about which remote operations ran. -/
structure DriveFacade where
  rootId : String
  listing : String → List DriveEntry
  supply : Nat → String
  createCount : Nat
  createLog : List DriveFile3
  writeLog : List (String × Nat × List Nat)

/-- Modelled from the spec: `DriveFacade::root_id`. -/
def DriveFacade.root_id (df : DriveFacade) : String :=
  df.rootId

/-- Modelled from the spec: `DriveFacade::get_all_files(Some parent_id)` —
the immediate children of a remote container. -/
def DriveFacade.get_all_files (df : DriveFacade) (parentId : String) : List DriveEntry :=
  df.listing parentId

/-- Modelled from the spec: `DriveFacade::create` — "synchronous call,
returns a remote ID on success". The remote-assigned ID is the next
element of the supply stream; the call is recorded in `createLog`. -/
def DriveFacade.create (df : DriveFacade) (d : DriveFile3) : String × DriveFacade :=
  (df.supply df.createCount,
    { df with createCount := df.createCount + 1, createLog := df.createLog ++ [d] })

/-- Modelled from the spec: `DriveFacade::write` — forwards the remote id,
offset and bytes; the call is recorded in `writeLog`. -/
def DriveFacade.write (df : DriveFacade) (did : String) (offset : Nat) (data : List Nat) :
    DriveFacade :=
  { df with writeLog := df.writeLog ++ [(did, offset, data)] }

/-- The `FileManager` struct of file_manager.rs. -/
structure FileManager where
  tree : IdTree
  files : HMap Nat File
  node_ids : HMap Nat Nat
  drive_ids : HMap String Nat
  df : DriveFacade

/-- The manager state `with_drive_facade` builds before `populate` runs:
empty tree and empty cross-reference tables. (`populate` itself only
performs `add_file` steps from this state.) -/
def FileManager.empty (df : DriveFacade) : FileManager :=
  { tree := IdTree.empty, files := [], node_ids := [], drive_ids := [], df := df }

/-- `get_children` restricted to a known `NodeId`: the body of
`FileManager::get_children` after `get_node_id` has resolved. Rust maps
each child node to `get_file(FileId::Inode(*child.data()))` and filters
out the `None`s (children whose payload is missing from `files`). -/
def FileManager.children_files (fm : FileManager) (nid : Nat) : Option (List File) :=
  (fm.tree.childrenOf nid).map (fun cs =>
    cs.filterMap (fun c => (fm.tree.get c).bind (fun nd => fm.files.get? nd.data)))

/-- `FileManager::get_inode`. Note the `Inode` arm: the source returns
`Some(inode)` without consulting any table. The `ParentAndName` arm is
`get_children(FileId::Inode(parent))?.find(name)` with
`get_node_id(FileId::Inode parent) = node_ids.get(parent)` inlined. -/
def FileManager.get_inode (fm : FileManager) : FileId → Option Nat
  | FileId.Inode inode => some inode
  | FileId.DriveId drive_id => fm.drive_ids.get? drive_id
  | FileId.NodeId node_id => (fm.tree.get node_id).map (fun nd => nd.data)
  | FileId.ParentAndName parent name =>
    ((fm.node_ids.get? parent).bind fm.children_files).bind (fun children =>
      (children.find? (fun child => child.name = name)).map (fun child => child.inode))

/-- `FileManager::get_node_id`. The `DriveId` arm `unwrap`s the inner
`get_inode`: an unregistered drive id panics in Rust, modelled as `none`. -/
def FileManager.get_node_id (fm : FileManager) : FileId → Option Nat
  | FileId.Inode inode => fm.node_ids.get? inode
  | FileId.DriveId drive_id =>
    (fm.get_inode (FileId.DriveId drive_id)).bind (fun i => fm.node_ids.get? i)
  | FileId.NodeId node_id => some node_id
  | FileId.ParentAndName parent name =>
    (fm.get_inode (FileId.ParentAndName parent name)).bind (fun i => fm.node_ids.get? i)

/-- `FileManager::get_children`. -/
def FileManager.get_children (fm : FileManager) (id : FileId) : Option (List File) :=
  (fm.get_node_id id).bind fm.children_files

/-- `FileManager::get_file`. -/
def FileManager.get_file (fm : FileManager) (id : FileId) : Option File :=
  (fm.get_inode id).bind (fun inode => fm.files.get? inode)

/-- `FileManager::get_drive_id`. -/
def FileManager.get_drive_id (fm : FileManager) (id : FileId) : Option String :=
  (fm.get_file id).bind File.drive_id

/-- `FileManager::contains`. -/
def FileManager.contains (fm : FileManager) : FileId → Bool
  | FileId.Inode inode => fm.node_ids.containsKey inode
  | FileId.DriveId drive_id => fm.drive_ids.containsKey drive_id
  | FileId.NodeId node_id => (fm.tree.get node_id).isSome
  | FileId.ParentAndName parent name =>
    (fm.get_file (FileId.ParentAndName parent name)).isSome

/-- first-fit scan of `next_available_inode`, made total with explicit
fuel; `firstAvail fm fuel start` is the first inode `>= start` not
registered in `node_ids`, provided some inode in `start..start+fuel` is
free (see `firstAvail_not_contains`). -/
def FileManager.firstAvail (fm : FileManager) : Nat → Nat → Nat
  | 0, start => start
  | fuel + 1, start =>
    if fm.contains (FileId.Inode start) then fm.firstAvail fuel (start + 1) else start

/-- `FileManager::next_available_inode`: the first-fit scan
`(1..).filter(|i| !contains(Inode i)).next()`. The fuel
`maxKey node_ids + 1` always suffices because `maxKey + 1` is free, so
the value is exactly the smallest positive unregistered inode (proved in
the allocator theorems below). -/
def FileManager.next_available_inode (fm : FileManager) : Nat :=
  fm.firstAvail (fm.node_ids.maxKey + 1) 1

/-- The table updates of `add_file` (lines 227-230): register the fresh
node id under the file's inode, conditionally register the drive id
(`file.drive_id().and_then(insert)` — only when the file carries one),
and store the file itself. -/
def FileManager.addTables (fm : FileManager) (file : File) (nid : Nat) : FileManager :=
  { fm with
      node_ids := fm.node_ids.insert file.inode nid
      drive_ids :=
        match file.drive_id with
        | some drive_id => fm.drive_ids.insert drive_id file.inode
        | none => fm.drive_ids
      files := fm.files.insert file.inode file }

/-- `FileManager::add_file`. The parent lookup and the tree insertion are
`unwrap`ed in Rust; failure of either is a panic, modelled as `none`.
On success: insert the fresh tree node, then perform the three table
updates (`addTables`). -/
def FileManager.add_file (fm : FileManager) (file : File) (parent : Option FileId) :
    Option FileManager :=
  match parent with
  | some pid =>
    match fm.get_node_id pid with
    | none => none
    | some parent_idx =>
      match fm.tree.insertUnder file.inode parent_idx with
      | none => none
      | some (nid, t) => some (FileManager.addTables { fm with tree := t } file nid)
  | none =>
    let p := fm.tree.insertAsRoot file.inode
    some (FileManager.addTables { fm with tree := p.2 } file p.1)

/-- `FileManager::create_file`: `df.create` runs first, on the pre-state
facade (`file.drive_file` is `unwrap`ed: absence panics, modelled as
`none`); the returned remote ID is attached to the file, and only then
does the purely local `add_file` run. -/
def FileManager.create_file (fm : FileManager) (file : File) (parent : Option FileId) :
    Option FileManager :=
  match file.drive_file with
  | none => none
  | some d =>
    let p := fm.df.create d
    FileManager.add_file { fm with df := p.2 } (file.set_drive_id p.1) parent

/-- `FileManager::write`: resolve to a drive id (`unwrap`: failure panics,
modelled as `none`, in which case no facade call happens) and forward
offset and bytes verbatim to `DriveFacade::write`. -/
def FileManager.write (fm : FileManager) (id : FileId) (offset : Nat) (data : List Nat) :
    Option FileManager :=
  match fm.get_drive_id id with
  | none => none
  | some drive_id => some { fm with df := fm.df.write drive_id offset data }

/-- `FileManager::new_root_file`: the synthetic mount root ("."), a
directory whose remote descriptor references the remote root ID. -/
def FileManager.new_root_file (fm : FileManager) : File :=
  { name := "."
    attr :=
      { ino := fm.next_available_inode
        size := 0
        blocks := 123
        atime := ⟨0, 0⟩
        mtime := ⟨0, 0⟩
        ctime := ⟨0, 0⟩
        crtime := ⟨0, 0⟩
        kind := FileType.Directory
        perm := 0o755
        nlink := 2
        uid := 0
        gid := 0
        rdev := 0
        flags := 0 }
    drive_file := some { id := some fm.df.root_id } }

/-- The per-child body of `populate`'s loop (lines 52-71): build a File
from the listing entry with a freshly allocated inode, then attach it
under the node registered for the popped remote id `parent_id` when that
id is registered, and with no parent otherwise. (The FIFO queue of
container ids only schedules which `parent_id`s are popped; it does not
affect how a child is attached, so it is managed by the caller.) -/
def FileManager.populateChild (fm : FileManager) (parent_id : String) (entry : DriveEntry) :
    Option FileManager :=
  let file := File.from_drive_file fm.next_available_inode entry
  if fm.contains (FileId.DriveId parent_id) then
    fm.add_file file (some (FileId.DriveId parent_id))
  else
    fm.add_file file none

/-- The states reachable from a freshly constructed manager (the empty
state `with_drive_facade` builds before populating) by any sequence of
successful `add_file` / `create_file` operations. `populate` itself only
performs such `add_file` steps, so every populated manager is reachable. -/
inductive Reachable : FileManager → Prop where
  | init : ∀ df, Reachable (FileManager.empty df)
  | add : ∀ {fm fm' : FileManager} {file : File} {parent : Option FileId},
      Reachable fm → fm.add_file file parent = some fm' → Reachable fm'
  | create : ∀ {fm fm' : FileManager} {file : File} {parent : Option FileId},
      Reachable fm → fm.create_file file parent = some fm' → Reachable fm'

/-! ### Association-list map lemmas -/

theorem HMap.get?_eraseKey_self {K V : Type} [DecidableEq K] (m : HMap K V) (a : K) :
    (m.eraseKey a).get? a = none := by
  induction m with
  | nil => rfl
  | cons p t ih =>
    obtain ⟨k, v⟩ := p
    by_cases h : k = a <;> simp [HMap.eraseKey, HMap.get?, h, ih]

theorem HMap.get?_eraseKey_ne {K V : Type} [DecidableEq K] (m : HMap K V) {a b : K}
    (h : b ≠ a) : (m.eraseKey a).get? b = m.get? b := by
  induction m with
  | nil => rfl
  | cons p t ih =>
    obtain ⟨k, v⟩ := p
    by_cases hk : k = a
    · subst hk
      simp [HMap.eraseKey, HMap.get?, Ne.symm h, ih]
    · by_cases hb : k = b
      · subst hb
        simp [HMap.eraseKey, HMap.get?, hk]
      · simp [HMap.eraseKey, HMap.get?, hk, hb, ih]

theorem HMap.get?_insert_self {K V : Type} [DecidableEq K] (m : HMap K V) (a : K) (v : V) :
    (m.insert a v).get? a = some v := by
  simp [HMap.insert, HMap.get?]

theorem HMap.get?_insert_ne {K V : Type} [DecidableEq K] (m : HMap K V) {a b : K}
    (h : b ≠ a) (v : V) : (m.insert a v).get? b = m.get? b := by
  simp [HMap.insert, HMap.get?, Ne.symm h, HMap.get?_eraseKey_ne m h]

theorem HMap.containsKey_insert {K V : Type} [DecidableEq K] (m : HMap K V) (a b : K) (v : V) :
    (m.insert a v).containsKey b = if b = a then true else m.containsKey b := by
  by_cases h : b = a
  · subst h; simp [HMap.containsKey, HMap.get?_insert_self]
  · simp [HMap.containsKey, h, HMap.get?_insert_ne m h]

theorem HMap.containsKey_iff_mem_keys {K V : Type} [DecidableEq K] {m : HMap K V} {a : K} :
    m.containsKey a = true ↔ a ∈ m.keys := by
  induction m with
  | nil => simp [HMap.containsKey, HMap.get?, HMap.keys]
  | cons p t ih =>
    obtain ⟨k, v⟩ := p
    by_cases h : k = a
    · subst h; simp [HMap.containsKey, HMap.get?, HMap.keys]
    · simp [HMap.containsKey, HMap.get?, HMap.keys, h, Ne.symm h] at ih ⊢
      exact ih

theorem HMap.keys_eraseKey_sublist {K V : Type} [DecidableEq K] (m : HMap K V) (a : K) :
    ((m.eraseKey a).keys).Sublist m.keys := by
  induction m with
  | nil => simp [HMap.eraseKey, HMap.keys]
  | cons p t ih =>
    obtain ⟨k, v⟩ := p
    by_cases h : k = a
    · simpa [HMap.eraseKey, HMap.keys, h] using ih.cons k
    · simpa [HMap.eraseKey, HMap.keys, h] using ih.cons₂ k

theorem HMap.not_mem_keys_eraseKey_self {K V : Type} [DecidableEq K] (m : HMap K V) (a : K) :
    a ∉ (m.eraseKey a).keys := by
  intro hmem
  have h := HMap.containsKey_iff_mem_keys.mpr hmem
  simp [HMap.containsKey, HMap.get?_eraseKey_self] at h

theorem HMap.nodup_keys_insert {K V : Type} [DecidableEq K] {m : HMap K V} (a : K) (v : V)
    (h : m.keys.Nodup) : ((m.insert a v).keys).Nodup := by
  have : (m.insert a v).keys = a :: (m.eraseKey a).keys := by
    simp [HMap.insert, HMap.keys]
  rw [this]
  exact List.nodup_cons.mpr
    ⟨HMap.not_mem_keys_eraseKey_self m a, (HMap.keys_eraseKey_sublist m a).nodup h⟩

theorem HMap.mem_keys_insert {K V : Type} [DecidableEq K] {m : HMap K V} {a b : K} {v : V} :
    b ∈ (m.insert a v).keys ↔ b = a ∨ b ∈ m.keys := by
  rw [← HMap.containsKey_iff_mem_keys, ← HMap.containsKey_iff_mem_keys,
    HMap.containsKey_insert]
  by_cases h : b = a <;> simp [h]

theorem HMap.mem_of_get?_eq_some {K V : Type} [DecidableEq K] {m : HMap K V} {a : K} {v : V}
    (h : m.get? a = some v) : (a, v) ∈ m := by
  induction m with
  | nil => simp [HMap.get?] at h
  | cons p t ih =>
    obtain ⟨k, w⟩ := p
    by_cases hk : k = a
    · subst hk
      simp [HMap.get?] at h
      subst h
      exact List.mem_cons_self _ _
    · simp [HMap.get?, hk] at h
      exact List.mem_cons_of_mem _ (ih h)

theorem HMap.le_maxKey {V : Type} {m : HMap Nat V} {a : Nat} (h : a ∈ m.keys) :
    a ≤ m.maxKey := by
  induction m with
  | nil => simp [HMap.keys] at h
  | cons p t ih =>
    simp [HMap.keys] at h
    have hmax : HMap.maxKey (p :: t) = max p.1 (HMap.maxKey t) := rfl
    rw [hmax]
    rcases h with h | h
    · exact le_max_iff.mpr (Or.inl (le_of_eq h))
    · exact le_max_iff.mpr (Or.inr (ih (by simpa [HMap.keys] using h)))

theorem HMap.maxKey_succ_free {V : Type} (m : HMap Nat V) :
    m.containsKey (m.maxKey + 1) = false := by
  by_contra h
  have hmem : (m.maxKey + 1) ∈ m.keys :=
    HMap.containsKey_iff_mem_keys.mp (by simpa using Bool.of_not_eq_false h)
  exact absurd (HMap.le_maxKey hmem) (by omega)

/-! ### Allocator lemmas -/

theorem FileManager.firstAvail_le (fm : FileManager) :
    ∀ fuel start, start ≤ fm.firstAvail fuel start := by
  intro fuel
  induction fuel with
  | zero => intro start; exact le_refl _
  | succ n ih =>
    intro start
    rw [FileManager.firstAvail]
    split
    · exact le_trans (Nat.le_succ start) (ih (start + 1))
    · exact le_refl _

theorem FileManager.firstAvail_contains_of_lt (fm : FileManager) :
    ∀ fuel start j, start ≤ j → j < fm.firstAvail fuel start →
      fm.contains (FileId.Inode j) = true := by
  intro fuel
  induction fuel with
  | zero =>
    intro start j hsj hlt
    rw [FileManager.firstAvail] at hlt
    omega
  | succ n ih =>
    intro start j hsj hlt
    rw [FileManager.firstAvail] at hlt
    by_cases hc : fm.contains (FileId.Inode start) = true
    · rw [if_pos hc] at hlt
      rcases Nat.eq_or_lt_of_le hsj with h | h
      · exact h ▸ hc
      · exact ih (start + 1) j h hlt
    · rw [if_neg hc] at hlt
      omega

theorem FileManager.firstAvail_not_contains (fm : FileManager) :
    ∀ fuel start, (∃ k, k ≤ fuel ∧ fm.contains (FileId.Inode (start + k)) = false) →
      fm.contains (FileId.Inode (fm.firstAvail fuel start)) = false := by
  intro fuel
  induction fuel with
  | zero =>
    intro start ⟨k, hk, hfree⟩
    have : k = 0 := Nat.le_zero.mp hk
    subst this
    simpa using hfree
  | succ n ih =>
    intro start ⟨k, hk, hfree⟩
    rw [FileManager.firstAvail]
    by_cases hc : fm.contains (FileId.Inode start) = true
    · rw [if_pos hc]
      refine ih (start + 1) ?_
      rcases Nat.eq_zero_or_pos k with h | h
      · subst h
        simp at hfree
        rw [hfree] at hc
        exact absurd hc (by simp)
      · refine ⟨k - 1, by omega, ?_⟩
        have heq : start + 1 + (k - 1) = start + k := by omega
        rw [heq]
        exact hfree
    · rw [if_neg hc]
      simp only [Bool.not_eq_true] at hc
      exact hc

/-- `next_available_inode` never collides with a registered inode: the
fuel `maxKey + 1` suffices because inode `maxKey + 1` is always free. -/
theorem FileManager.next_available_inode_free (fm : FileManager) :
    fm.contains (FileId.Inode fm.next_available_inode) = false := by
  rw [FileManager.next_available_inode]
  apply fm.firstAvail_not_contains
  refine ⟨fm.node_ids.maxKey, Nat.le_succ _, ?_⟩
  have h := HMap.maxKey_succ_free fm.node_ids
  show fm.node_ids.containsKey (1 + fm.node_ids.maxKey) = false
  rwa [Nat.add_comm]

/-! ### Tree insertion lemmas -/

theorem HMap.eraseKey_sublist {K V : Type} [DecidableEq K] (m : HMap K V) (a : K) :
    (m.eraseKey a).Sublist m := by
  induction m with
  | nil => simp [HMap.eraseKey]
  | cons p t ih =>
    obtain ⟨k, v⟩ := p
    by_cases h : k = a
    · simpa [HMap.eraseKey, h] using ih.cons (k, v)
    · simpa [HMap.eraseKey, h] using ih.cons₂ (k, v)

theorem IdTree.insertUnder_spec (t : IdTree) (d pid : Nat) {nid : Nat} {t' : IdTree}
    (h : t.insertUnder d pid = some (nid, t')) :
    nid = t.nodes.length
    ∧ t'.nodes.length = t.nodes.length + 1
    ∧ t'.nodes[t.nodes.length]? =
        some { data := d, parent := some pid, children := [] }
    ∧ t'.rootIdx = t.rootIdx
    ∧ pid < t.nodes.length
    ∧ (∀ idx, idx ≠ pid → idx < t.nodes.length → t'.nodes[idx]? = t.nodes[idx]?)
    ∧ (∀ pn, t.nodes[pid]? = some pn →
        t'.nodes[pid]? = some { pn with children := pn.children ++ [t.nodes.length] }) := by
  rw [IdTree.insertUnder] at h
  rcases hp : t.nodes[pid]? with _ | pn
  · rw [hp] at h
    exact absurd h (by simp)
  · rw [hp] at h
    simp only [Option.some.injEq, Prod.mk.injEq] at h
    obtain ⟨hnid, ht⟩ := h
    have hpidlt : pid < t.nodes.length := by
      by_contra hge
      rw [List.getElem?_eq_none (by omega)] at hp
      exact absurd hp (by simp)
    subst hnid
    subst ht
    refine ⟨rfl, by simp [List.length_set], ?_, rfl, hpidlt, ?_, ?_⟩
    · have hlen : (t.nodes.set pid { pn with children := pn.children ++ [t.nodes.length] }).length
          = t.nodes.length := List.length_set _ _ _
      have h1 := (t.nodes.set pid { pn with children := pn.children ++ [t.nodes.length]
        }).getElem?_concat_length { data := d, parent := some pid, children := [] }
      rwa [hlen] at h1
    · intro idx hne hlt
      rw [List.getElem?_append_left (by simpa [List.length_set] using hlt),
        List.getElem?_set_ne (Ne.symm hne)]
    · intro pn' hpn'
      have hpp : pn = pn' := by simpa using hpn'
      subst hpp
      rw [List.getElem?_append_left (by simpa [List.length_set] using hpidlt)]
      exact List.getElem?_set_eq_of_lt _ hpidlt

theorem IdTree.insertAsRoot_spec (t : IdTree) (d : Nat) :
    (t.insertAsRoot d).1 = t.nodes.length
    ∧ (t.insertAsRoot d).2.nodes.length = t.nodes.length + 1
    ∧ (t.insertAsRoot d).2.rootIdx = some t.nodes.length
    ∧ (∃ cs, (t.insertAsRoot d).2.nodes[t.nodes.length]? =
        some { data := d, parent := none, children := cs })
    ∧ (∀ r, t.rootIdx = some r →
        ∀ idx, idx ≠ r → idx < t.nodes.length →
          (t.insertAsRoot d).2.nodes[idx]? = t.nodes[idx]?)
    ∧ (t.rootIdx = none → ∀ idx, idx < t.nodes.length →
        (t.insertAsRoot d).2.nodes[idx]? = t.nodes[idx]?)
    ∧ (∀ r rn, t.rootIdx = some r → t.nodes[r]? = some rn →
        (t.insertAsRoot d).2.nodes[r]? = some { rn with parent := some t.nodes.length }
        ∧ (t.insertAsRoot d).2.nodes[t.nodes.length]? =
            some { data := d, parent := none, children := [r] }) := by
  rcases hr : t.rootIdx with _ | r
  · refine ⟨rfl, by simp [IdTree.insertAsRoot, hr], by simp [IdTree.insertAsRoot, hr],
      ?_, ?_, ?_, ?_⟩
    · exact ⟨[], by simpa [IdTree.insertAsRoot, hr] using t.nodes.getElem?_concat_length _⟩
    · intro r' h
      exact absurd h (by simp)
    · intro _ idx hlt
      simp only [IdTree.insertAsRoot, hr]
      exact List.getElem?_append_left hlt
    · intro r' rn h
      exact absurd h (by simp)
  · rcases hrn : t.nodes[r]? with _ | rn
    · refine ⟨rfl, by simp [IdTree.insertAsRoot, hr, hrn], by simp [IdTree.insertAsRoot, hr, hrn],
        ?_, ?_, ?_, ?_⟩
      · exact ⟨[r], by simpa [IdTree.insertAsRoot, hr, hrn] using t.nodes.getElem?_concat_length _⟩
      · intro r' h idx hne hlt
        simp only [IdTree.insertAsRoot, hr, hrn]
        exact List.getElem?_append_left hlt
      · intro h
        exact absurd h (by simp)
      · intro r' rn' h hn
        have hrr : r' = r := by simpa using h.symm
        subst hrr
        rw [hrn] at hn
        exact absurd hn (by simp)
    · have hrlt : r < t.nodes.length := by
        by_contra hge
        rw [List.getElem?_eq_none (by omega)] at hrn
        exact absurd hrn (by simp)
      refine ⟨rfl, by simp [IdTree.insertAsRoot, hr, hrn, List.length_set],
        by simp [IdTree.insertAsRoot, hr, hrn], ?_, ?_, ?_, ?_⟩
      · refine ⟨[r], ?_⟩
        simp only [IdTree.insertAsRoot, hr, hrn]
        have hlen : (t.nodes.set r { rn with parent := some t.nodes.length }).length
            = t.nodes.length := List.length_set _ _ _
        have h1 := (t.nodes.set r { rn with parent := some t.nodes.length
          }).getElem?_concat_length { data := d, parent := none, children := [r] }
        rwa [hlen] at h1
      · intro r' h idx hne hlt
        have hrr : r = r' := by simpa using h
        subst hrr
        simp only [IdTree.insertAsRoot, hr, hrn]
        rw [List.getElem?_append_left (by simpa [List.length_set] using hlt),
          List.getElem?_set_ne (Ne.symm hne)]
      · intro h
        exact absurd h (by simp)
      · intro r' rn' h hn
        have hrr : r = r' := by simpa using h
        subst hrr
        rw [hrn] at hn
        have hrnn : rn = rn' := by simpa using hn
        subst hrnn
        constructor
        · simp only [IdTree.insertAsRoot, hr, hrn]
          rw [List.getElem?_append_left (by simpa [List.length_set] using hrlt)]
          exact List.getElem?_set_eq_of_lt _ hrlt
        · simp only [IdTree.insertAsRoot, hr, hrn]
          have hlen : (t.nodes.set r { rn with parent := some t.nodes.length }).length
              = t.nodes.length := List.length_set _ _ _
          have h1 := (t.nodes.set r { rn with parent := some t.nodes.length
            }).getElem?_concat_length { data := d, parent := none, children := [r] }
          rwa [hlen] at h1

/-! ### `add_file` inversion and frame lemmas -/

theorem FileManager.addTables_tree (fm : FileManager) (file : File) (nid : Nat) :
    (fm.addTables file nid).tree = fm.tree := rfl

theorem FileManager.addTables_df (fm : FileManager) (file : File) (nid : Nat) :
    (fm.addTables file nid).df = fm.df := rfl

theorem FileManager.addTables_files (fm : FileManager) (file : File) (nid : Nat) :
    (fm.addTables file nid).files = fm.files.insert file.inode file := rfl

theorem FileManager.addTables_node_ids (fm : FileManager) (file : File) (nid : Nat) :
    (fm.addTables file nid).node_ids = fm.node_ids.insert file.inode nid := rfl

theorem FileManager.addTables_drive_ids_none (fm : FileManager) {file : File} (nid : Nat)
    (h : file.drive_id = none) : (fm.addTables file nid).drive_ids = fm.drive_ids := by
  simp [FileManager.addTables, h]

theorem FileManager.addTables_drive_ids_some (fm : FileManager) {file : File} (nid : Nat)
    {d : String} (h : file.drive_id = some d) :
    (fm.addTables file nid).drive_ids = fm.drive_ids.insert d file.inode := by
  simp [FileManager.addTables, h]

/-- Inversion of a successful `add_file`: with no parent the node is
inserted `AsRoot`; with a parent the parent identifier resolved to a
valid node and the node was inserted under it. In both cases the
successor is `addTables` of the updated tree, and the fresh `NodeId` is
the old arena size. -/
theorem FileManager.add_file_inv {fm fm' : FileManager} {file : File} {parent : Option FileId}
    (h : fm.add_file file parent = some fm') :
    (parent = none
      ∧ fm' = FileManager.addTables { fm with tree := (fm.tree.insertAsRoot file.inode).2 }
          file (fm.tree.insertAsRoot file.inode).1
      ∧ (fm.tree.insertAsRoot file.inode).1 = fm.tree.nodes.length)
    ∨ (∃ pid pidx t, parent = some pid
        ∧ fm.get_node_id pid = some pidx
        ∧ fm.tree.insertUnder file.inode pidx = some (fm.tree.nodes.length, t)
        ∧ fm' = FileManager.addTables { fm with tree := t } file fm.tree.nodes.length) := by
  cases parent with
  | none =>
    left
    have h2 : some (FileManager.addTables
        { fm with tree := (fm.tree.insertAsRoot file.inode).2 } file
        (fm.tree.insertAsRoot file.inode).1) = some fm' := h
    simp only [Option.some.injEq] at h2
    exact ⟨rfl, h2.symm, rfl⟩
  | some pid =>
    right
    rcases hg : fm.get_node_id pid with _ | pidx
    · have key : fm.add_file file (some pid) = none := by
        rw [FileManager.add_file, hg]
      rw [key] at h
      exact absurd h (by simp)
    · have key : fm.add_file file (some pid)
          = (match fm.tree.insertUnder file.inode pidx with
             | none => none
             | some (nid, t) =>
               some (FileManager.addTables { fm with tree := t } file nid)) := by
        rw [FileManager.add_file, hg]
      rw [key] at h
      rcases hi : fm.tree.insertUnder file.inode pidx with _ | p
      · rw [hi] at h
        exact absurd h (by simp)
      · obtain ⟨nid, t⟩ := p
        have hnid : nid = fm.tree.nodes.length := (fm.tree.insertUnder_spec _ _ hi).1
        subst hnid
        rw [hi] at h
        have h2 : some (FileManager.addTables { fm with tree := t } file
            fm.tree.nodes.length) = some fm' := h
        simp only [Option.some.injEq] at h2
        exact ⟨pid, pidx, t, rfl, hg, hi, h2.symm⟩

/-- Everything C10 asserts about a successful `add_file file parent`
step from `fm` to `fm'`: the facade is untouched; exactly one tree node
is appended, carrying `file`'s inode; `node_ids` and `files` are
overwritten at key `file.inode` (new node id resp. the file itself) and
unchanged at every other key; `drive_ids` is completely unchanged when
the file has no remote descriptor, and otherwise overwritten at the
file's remote ID and unchanged at every other remote ID. -/
def AddFileFrame (fm fm' : FileManager) (file : File) : Prop :=
  fm'.df = fm.df
  ∧ fm'.tree.nodes.length = fm.tree.nodes.length + 1
  ∧ (∃ nd : TreeNode, fm'.tree.nodes[fm.tree.nodes.length]? = some nd ∧ nd.data = file.inode)
  ∧ fm'.node_ids.get? file.inode = some fm.tree.nodes.length
  ∧ fm'.files.get? file.inode = some file
  ∧ (∀ k, k ≠ file.inode → fm'.node_ids.get? k = fm.node_ids.get? k)
  ∧ (∀ k, k ≠ file.inode → fm'.files.get? k = fm.files.get? k)
  ∧ (file.drive_id = none → fm'.drive_ids = fm.drive_ids)
  ∧ (∀ d, file.drive_id = some d →
      fm'.drive_ids.get? d = some file.inode
      ∧ ∀ e, e ≠ d → fm'.drive_ids.get? e = fm.drive_ids.get? e)

/-- **C10**: a successful `add_file file parent` modifies at most the
tree (one appended node carrying the file's inode), the `node_ids` and
`files` entries at key `file.inode` (silently overwriting any previous
binding there), and — only when the file carries a remote descriptor —
the `drive_ids` entry at the file's remote ID; every other key of every
table, and the Drive facade, are left unchanged. -/
theorem C10_add_file_frame {fm fm' : FileManager} (file : File) (parent : Option FileId)
    (h : fm.add_file file parent = some fm') : AddFileFrame fm fm' file := by
  rcases fm.add_file_inv h with ⟨_, hfm, hroot⟩ | ⟨pid, pidx, t, _, hg, hi, hfm⟩
  · obtain ⟨-, hlen, -, ⟨cs, hnew⟩, -⟩ := fm.tree.insertAsRoot_spec file.inode
    subst hfm
    refine ⟨rfl, by simpa using hlen, ⟨_, by simpa using hnew, rfl⟩,
      ?_, ?_, ?_, ?_, ?_, ?_⟩
    · rw [FileManager.addTables_node_ids]
      rw [show (FileManager.mk (fm.tree.insertAsRoot file.inode).2 fm.files fm.node_ids
        fm.drive_ids fm.df).node_ids = fm.node_ids from rfl]
      rw [← hroot]
      exact HMap.get?_insert_self _ _ _
    · exact HMap.get?_insert_self _ _ _
    · intro k hk
      exact HMap.get?_insert_ne _ hk _
    · intro k hk
      exact HMap.get?_insert_ne _ hk _
    · intro hd
      exact FileManager.addTables_drive_ids_none _ _ hd
    · intro d hd
      rw [FileManager.addTables_drive_ids_some _ _ hd]
      exact ⟨HMap.get?_insert_self _ _ _, fun e he => HMap.get?_insert_ne _ he _⟩
  · obtain ⟨-, hlen, hnew, -, -, -⟩ := fm.tree.insertUnder_spec _ _ hi
    subst hfm
    refine ⟨rfl, by simpa using hlen, ⟨_, by simpa using hnew, rfl⟩,
      ?_, ?_, ?_, ?_, ?_, ?_⟩
    · exact HMap.get?_insert_self _ _ _
    · exact HMap.get?_insert_self _ _ _
    · intro k hk
      exact HMap.get?_insert_ne _ hk _
    · intro k hk
      exact HMap.get?_insert_ne _ hk _
    · intro hd
      exact FileManager.addTables_drive_ids_none _ _ hd
    · intro d hd
      rw [FileManager.addTables_drive_ids_some _ _ hd]
      exact ⟨HMap.get?_insert_self _ _ _, fun e he => HMap.get?_insert_ne _ he _⟩

/-! ### State invariants maintained by the reachability induction -/

/-- The well-formedness facts a reachable manager state satisfies. -/
structure Invariants (fm : FileManager) : Prop where
  keys_iff : ∀ i, i ∈ fm.node_ids.keys ↔ i ∈ fm.files.keys
  nodup_drive : fm.drive_ids.keys.Nodup
  drive_vals : ∀ d i, fm.drive_ids.get? d = some i → i ∈ fm.files.keys
  key_consistent : ∀ p ∈ fm.files, File.inode p.2 = p.1
  node_vals : ∀ i n, fm.node_ids.get? i = some n → n < fm.tree.nodes.length
  root_iff : ∀ idx nd, fm.tree.nodes[idx]? = some nd →
    (nd.parent = none ↔ fm.tree.rootIdx = some idx)
  root_lt : ∀ r, fm.tree.rootIdx = some r → r < fm.tree.nodes.length
  root_none : fm.tree.rootIdx = none → fm.tree.nodes = []

theorem invariants_empty (df : DriveFacade) : Invariants (FileManager.empty df) := by
  refine ⟨by simp [FileManager.empty, HMap.keys], by simp [FileManager.empty, HMap.keys],
    ?_, ?_, ?_, ?_, ?_, ?_⟩
  · intro d i h
    exact absurd h (by simp [FileManager.empty, HMap.get?])
  · intro p hp
    exact absurd hp (by simp [FileManager.empty])
  · intro i n h
    exact absurd h (by simp [FileManager.empty, HMap.get?])
  · intro idx nd h
    exact absurd h (by simp [FileManager.empty, IdTree.empty])
  · intro r h
    exact absurd h (by simp [FileManager.empty, IdTree.empty])
  · intro _
    rfl

theorem invariants_add_file {fm fm' : FileManager} {file : File} {parent : Option FileId}
    (inv : Invariants fm) (h : fm.add_file file parent = some fm') : Invariants fm' := by
  obtain ⟨hkeys, hnodup, hvals, hkc, hnv, hriff, hrlt, hrnone⟩ := inv
  rcases fm.add_file_inv h with ⟨_, hfm, hroot⟩ | ⟨pid, pidx, t, _, hg, hi, hfm⟩
  · -- inserted as root
    obtain ⟨h1, hlen2, hrootIdx, ⟨cs, hnew⟩, hfrS, hfrN, hrepar⟩ :=
      fm.tree.insertAsRoot_spec file.inode
    subst hfm
    refine ⟨?_, ?_, ?_, ?_, ?_, ?_, ?_, ?_⟩
    · intro i
      simp only [FileManager.addTables_node_ids, FileManager.addTables_files]
      rw [HMap.mem_keys_insert, HMap.mem_keys_insert]
      exact or_congr Iff.rfl (hkeys i)
    · rcases hd : file.drive_id with _ | d
      · rw [FileManager.addTables_drive_ids_none _ _ hd]
        exact hnodup
      · rw [FileManager.addTables_drive_ids_some _ _ hd]
        exact HMap.nodup_keys_insert _ _ hnodup
    · intro e i hget
      simp only [FileManager.addTables_files]
      rw [HMap.mem_keys_insert]
      rcases hd : file.drive_id with _ | d
      · rw [FileManager.addTables_drive_ids_none _ _ hd] at hget
        exact Or.inr (hvals e i hget)
      · rw [FileManager.addTables_drive_ids_some _ _ hd] at hget
        by_cases he : e = d
        · subst he
          rw [HMap.get?_insert_self] at hget
          exact Or.inl (by simpa using hget.symm)
        · rw [HMap.get?_insert_ne _ he] at hget
          exact Or.inr (hvals e i hget)
    · intro p hp
      simp only [FileManager.addTables_files] at hp
      rcases List.mem_cons.mp hp with hp | hp
      · subst hp
        rfl
      · exact hkc p ((HMap.eraseKey_sublist _ _).subset hp)
    · intro i n hget
      simp only [FileManager.addTables_node_ids] at hget
      have htl : (FileManager.addTables
          { fm with tree := (fm.tree.insertAsRoot file.inode).2 } file
          (fm.tree.insertAsRoot file.inode).1).tree.nodes.length
          = fm.tree.nodes.length + 1 := hlen2
      rw [htl]
      by_cases hik : i = file.inode
      · subst hik
        rw [HMap.get?_insert_self] at hget
        have : n = (fm.tree.insertAsRoot file.inode).1 := by simpa using hget.symm
        subst this
        rw [h1]
        omega
      · rw [HMap.get?_insert_ne _ hik] at hget
        have := hnv i n hget
        omega
    · intro idx nd hnd
      have hlt : idx < fm.tree.nodes.length + 1 := by
        by_contra hge
        rw [show (FileManager.addTables { fm with tree := (fm.tree.insertAsRoot file.inode).2 }
          file (fm.tree.insertAsRoot file.inode).1).tree
            = (fm.tree.insertAsRoot file.inode).2 from rfl] at hnd
        rw [List.getElem?_eq_none (by omega)] at hnd
        exact absurd hnd (by simp)
      rw [show (FileManager.addTables { fm with tree := (fm.tree.insertAsRoot file.inode).2 }
        file (fm.tree.insertAsRoot file.inode).1).tree
          = (fm.tree.insertAsRoot file.inode).2 from rfl] at hnd ⊢
      rw [hrootIdx]
      by_cases hidx : idx = fm.tree.nodes.length
      · subst hidx
        rw [hnew] at hnd
        have : nd = { data := file.inode, parent := none, children := cs } := by
          simpa using hnd.symm
        subst this
        simp
      · have hltold : idx < fm.tree.nodes.length := by omega
        rcases hr0 : fm.tree.rootIdx with _ | r
        · have : fm.tree.nodes = [] := hrnone hr0
          rw [this] at hltold
          simp at hltold
        · by_cases hir : idx = r
          · subst hir
            have hrn := List.getElem?_eq_getElem (l := fm.tree.nodes) (hrlt idx hr0)
            obtain ⟨hrep, -⟩ := hrepar idx _ hr0 hrn
            rw [hrep] at hnd
            have : nd = { fm.tree.nodes[idx] with parent := some fm.tree.nodes.length } := by
              simpa using hnd.symm
            subst this
            constructor
            · intro hc
              exact absurd hc (by simp)
            · intro hc
              have : fm.tree.nodes.length = idx := by simpa using hc
              omega
          · rw [hfrS r hr0 idx hir hltold] at hnd
            have hold := hriff idx nd hnd
            rw [hr0] at hold
            constructor
            · intro hc
              have : r = idx := by simpa using hold.mp hc
              exact absurd this.symm hir
            · intro hc
              have : fm.tree.nodes.length = idx := by simpa using hc
              omega
    · intro r hr
      rw [show (FileManager.addTables { fm with tree := (fm.tree.insertAsRoot file.inode).2 }
        file (fm.tree.insertAsRoot file.inode).1).tree
          = (fm.tree.insertAsRoot file.inode).2 from rfl] at hr ⊢
      rw [hrootIdx] at hr
      have : r = fm.tree.nodes.length := by simpa using hr.symm
      subst this
      rw [hlen2]
      omega
    · intro hr
      rw [show (FileManager.addTables { fm with tree := (fm.tree.insertAsRoot file.inode).2 }
        file (fm.tree.insertAsRoot file.inode).1).tree
          = (fm.tree.insertAsRoot file.inode).2 from rfl] at hr
      rw [hrootIdx] at hr
      exact absurd hr (by simp)
  · -- inserted under a resolved parent
    obtain ⟨-, hlen2, hnew, hrootIdx, hpidlt, hfr, hpslot⟩ := fm.tree.insertUnder_spec _ _ hi
    subst hfm
    refine ⟨?_, ?_, ?_, ?_, ?_, ?_, ?_, ?_⟩
    · intro i
      simp only [FileManager.addTables_node_ids, FileManager.addTables_files]
      rw [HMap.mem_keys_insert, HMap.mem_keys_insert]
      exact or_congr Iff.rfl (hkeys i)
    · rcases hd : file.drive_id with _ | d
      · rw [FileManager.addTables_drive_ids_none _ _ hd]
        exact hnodup
      · rw [FileManager.addTables_drive_ids_some _ _ hd]
        exact HMap.nodup_keys_insert _ _ hnodup
    · intro e i hget
      simp only [FileManager.addTables_files]
      rw [HMap.mem_keys_insert]
      rcases hd : file.drive_id with _ | d
      · rw [FileManager.addTables_drive_ids_none _ _ hd] at hget
        exact Or.inr (hvals e i hget)
      · rw [FileManager.addTables_drive_ids_some _ _ hd] at hget
        by_cases he : e = d
        · subst he
          rw [HMap.get?_insert_self] at hget
          exact Or.inl (by simpa using hget.symm)
        · rw [HMap.get?_insert_ne _ he] at hget
          exact Or.inr (hvals e i hget)
    · intro p hp
      simp only [FileManager.addTables_files] at hp
      rcases List.mem_cons.mp hp with hp | hp
      · subst hp
        rfl
      · exact hkc p ((HMap.eraseKey_sublist _ _).subset hp)
    · intro i n hget
      simp only [FileManager.addTables_node_ids] at hget
      have htl : (FileManager.addTables { fm with tree := t } file
          fm.tree.nodes.length).tree.nodes.length = fm.tree.nodes.length + 1 := hlen2
      rw [htl]
      by_cases hik : i = file.inode
      · subst hik
        rw [HMap.get?_insert_self] at hget
        have : n = fm.tree.nodes.length := by simpa using hget.symm
        subst this
        omega
      · rw [HMap.get?_insert_ne _ hik] at hget
        have := hnv i n hget
        omega
    · intro idx nd hnd
      rw [show (FileManager.addTables { fm with tree := t } file
        fm.tree.nodes.length).tree = t from rfl] at hnd ⊢
      have hlt : idx < fm.tree.nodes.length + 1 := by
        by_contra hge
        rw [List.getElem?_eq_none (by omega)] at hnd
        exact absurd hnd (by simp)
      rw [hrootIdx]
      by_cases hidx : idx = fm.tree.nodes.length
      · subst hidx
        rw [hnew] at hnd
        have : nd = { data := file.inode, parent := some pidx, children := [] } := by
          simpa using hnd.symm
        subst this
        constructor
        · intro hc
          exact absurd hc (by simp)
        · intro hc
          rcases hr0 : fm.tree.rootIdx with _ | r
          · rw [hr0] at hc
            exact absurd hc (by simp)
          · rw [hr0] at hc
            have : r = fm.tree.nodes.length := by simpa using hc
            have := hrlt r hr0
            omega
      · have hltold : idx < fm.tree.nodes.length := by omega
        by_cases hip : idx = pidx
        · subst hip
          have hpn := List.getElem?_eq_getElem (l := fm.tree.nodes) hpidlt
          have hslot := hpslot _ hpn
          rw [hslot] at hnd
          have : nd = { fm.tree.nodes[idx] with
              children := (fm.tree.nodes[idx]).children ++ [fm.tree.nodes.length] } := by
            simpa using hnd.symm
          subst this
          simpa using hriff idx (fm.tree.nodes[idx]) hpn
        · rw [hfr idx hip hltold] at hnd
          exact hriff idx nd hnd
    · intro r hr
      rw [show (FileManager.addTables { fm with tree := t } file
        fm.tree.nodes.length).tree = t from rfl] at hr ⊢
      rw [hrootIdx] at hr
      have := hrlt r hr
      rw [hlen2]
      omega
    · intro hr
      rw [show (FileManager.addTables { fm with tree := t } file
        fm.tree.nodes.length).tree = t from rfl] at hr
      rw [hrootIdx] at hr
      have hempty := hrnone hr
      rw [hempty] at hpidlt
      simp at hpidlt

theorem invariants_create_file {fm fm' : FileManager} {file : File} {parent : Option FileId}
    (inv : Invariants fm) (h : fm.create_file file parent = some fm') : Invariants fm' := by
  rcases hd : file.drive_file with _ | d
  · have key : fm.create_file file parent = none := by
      rw [FileManager.create_file, hd]
    rw [key] at h
    exact absurd h (by simp)
  · have h2 : FileManager.add_file { fm with df := (fm.df.create d).2 }
        (file.set_drive_id (fm.df.create d).1) parent = some fm' := by
      rw [← h, FileManager.create_file, hd]
    have hmid : Invariants { fm with df := (fm.df.create d).2 } :=
      ⟨inv.keys_iff, inv.nodup_drive, inv.drive_vals, inv.key_consistent, inv.node_vals,
        inv.root_iff, inv.root_lt, inv.root_none⟩
    exact invariants_add_file hmid h2

theorem reachable_invariants {fm : FileManager} (h : Reachable fm) : Invariants fm := by
  induction h with
  | init df => exact invariants_empty df
  | add _ hstep ih => exact invariants_add_file ih hstep
  | create _ hstep ih => exact invariants_create_file ih hstep

/-! ### Further operation lemmas -/

theorem HMap.key_consistent_insert {m : HMap Nat File}
    (h : ∀ p ∈ m, File.inode p.2 = p.1) (f : File) :
    ∀ p ∈ m.insert (File.inode f) f, File.inode p.2 = p.1 := by
  intro p hp
  rcases List.mem_cons.mp hp with hp | hp
  · subst hp
    rfl
  · exact h p ((HMap.eraseKey_sublist _ _).subset hp)

theorem IdTree.insertUnder_isSome (t : IdTree) (d pid : Nat) (h : pid < t.nodes.length) :
    ∃ t2, t.insertUnder d pid = some (t.nodes.length, t2) := by
  rw [IdTree.insertUnder, List.getElem?_eq_getElem h]
  exact ⟨_, rfl⟩

/-- successful `add_file` under a resolved parent, as an equation -/
theorem FileManager.add_file_eq_of_parent {fm : FileManager} {file : File} {pid : FileId}
    {pIdx : Nat} {t : IdTree}
    (hpid : fm.get_node_id pid = some pIdx)
    (hins : fm.tree.insertUnder file.inode pIdx = some (fm.tree.nodes.length, t)) :
    fm.add_file file (some pid)
      = some (FileManager.addTables { fm with tree := t } file fm.tree.nodes.length) := by
  have key : fm.add_file file (some pid)
      = (match fm.tree.insertUnder file.inode pIdx with
         | none => none
         | some (nid, t2) =>
           some (FileManager.addTables { fm with tree := t2 } file nid)) := by
    rw [FileManager.add_file, hpid]
  rw [key, hins]

/-- `add_file` with no parent always succeeds, as an equation -/
theorem FileManager.add_file_eq_root (fm : FileManager) (file : File) :
    fm.add_file file none
      = some (FileManager.addTables
          { fm with tree := (fm.tree.insertAsRoot file.inode).2 } file
          (fm.tree.insertAsRoot file.inode).1) := rfl

/-- identifier resolution ignores the facade component -/
theorem FileManager.get_node_id_df (fm : FileManager) (x : DriveFacade) (id : FileId) :
    FileManager.get_node_id { fm with df := x } id = fm.get_node_id id := by
  cases id <;> rfl

/-- `contains (ByParentAndName pIno nm)` holds as soon as some child `c`
of the parent's node has a File entity named `nm` (key-consistency of
`files` makes the file found by name resolvable again). -/
theorem FileManager.contains_pan_of_child {fm : FileManager} {pIno : Nat} {nm : String}
    (hkc : ∀ q ∈ fm.files, File.inode q.2 = q.1)
    {pIdx : Nat} (hpid : fm.node_ids.get? pIno = some pIdx)
    {cs : List Nat} (hcs : fm.tree.childrenOf pIdx = some cs)
    {c : Nat} (hc : c ∈ cs) {nd : TreeNode} (hnd : fm.tree.get c = some nd)
    {g : File} (hg : fm.files.get? nd.data = some g) (hname : g.name = nm) :
    fm.contains (FileId.ParentAndName pIno nm) = true := by
  have hlist : fm.children_files pIdx
      = some (cs.filterMap (fun c2 => (fm.tree.get c2).bind
          (fun nd2 => fm.files.get? nd2.data))) := by
    rw [FileManager.children_files, hcs]
    rfl
  have hgmem : g ∈ cs.filterMap (fun c2 => (fm.tree.get c2).bind
      (fun nd2 => fm.files.get? nd2.data)) :=
    List.mem_filterMap.mpr ⟨c, hc, by rw [hnd]; simpa using hg⟩
  have hfind : ((cs.filterMap (fun c2 => (fm.tree.get c2).bind
      (fun nd2 => fm.files.get? nd2.data))).find? (fun child => child.name = nm)).isSome :=
    List.find?_isSome.mpr ⟨g, hgmem, by simp [hname]⟩
  obtain ⟨g', hg'⟩ := Option.isSome_iff_exists.mp hfind
  obtain ⟨c', hc', hfc'⟩ := List.mem_filterMap.mp (List.mem_of_find?_eq_some hg')
  rcases hnd' : fm.tree.get c' with _ | nd'
  · rw [hnd'] at hfc'
    exact absurd hfc' (by simp)
  · rw [hnd'] at hfc'
    rw [Option.some_bind] at hfc'
    have hkey : File.inode g' = nd'.data := hkc (nd'.data, g') (HMap.mem_of_get?_eq_some hfc')
    have hinode : fm.get_inode (FileId.ParentAndName pIno nm)
        = ((cs.filterMap (fun c2 => (fm.tree.get c2).bind
            (fun nd2 => fm.files.get? nd2.data))).find?
              (fun child => child.name = nm)).map (fun child => child.inode) := by
      show ((fm.node_ids.get? pIno).bind fm.children_files).bind
          (fun children => (children.find? (fun child => child.name = nm)).map
            (fun child => child.inode)) = _
      rw [hpid, Option.some_bind, hlist, Option.some_bind]
    rw [hg'] at hinode
    have hfile : fm.get_file (FileId.ParentAndName pIno nm) = some g' := by
      rw [FileManager.get_file, hinode, Option.map_some', Option.some_bind]
      show fm.files.get? (File.inode g') = some g'
      rw [hkey]
      exact hfc'
    show (fm.get_file (FileId.ParentAndName pIno nm)).isSome = true
    rw [hfile]
    rfl

/-- A concrete Drive facade: remote root id "root", empty listings, and
`create` returning ids "c0", "c1", ... -/
def exampleFacade : DriveFacade :=
  { rootId := "root"
    listing := fun _ => []
    supply := fun n => "c" ++ Nat.repr n
    createCount := 0
    createLog := []
    writeLog := [] }

/-- a plain attribute record with inode `ino` -/
def attrOf (ino : Nat) (k : FileType) : FileAttr :=
  { ino := ino, size := 0, blocks := 0, atime := ⟨0, 0⟩, mtime := ⟨0, 0⟩, ctime := ⟨0, 0⟩,
    crtime := ⟨0, 0⟩, kind := k, perm := 0o644, nlink := 1, uid := 0, gid := 0, rdev := 0,
    flags := 0 }

/-- A manager whose registered inode key set is exactly {1, 2, 4} (the
`node_ids` table is what `contains (Inode ·)` and thus the allocator
consult). -/
def fm124 : FileManager :=
  { tree := IdTree.empty, files := [], node_ids := [(1, 0), (2, 1), (4, 2)], drive_ids := [],
    df := exampleFacade }

/-- a file with inode 1 and no remote descriptor -/
def noDriveFile : File :=
  { name := "n.txt", attr := attrOf 1 FileType.RegularFile, drive_file := none }

/-- the manager obtained by registering `noDriveFile` as root in a fresh
manager -/
def fmNoDrive : FileManager :=
  ((FileManager.empty exampleFacade).add_file noDriveFile none).getD
    (FileManager.empty exampleFacade)

/-! ### C2: the inode allocator -/

/-- **C2**: for every manager state, `next_available_inode` is the
smallest positive integer absent from the current inode key set (the key
set of `node_ids`, the table `contains (ByInode ·)` consults): it is
positive, unregistered, and every smaller positive integer is
registered; in particular, on a manager whose registered inodes are
exactly {1, 2, 4} it returns 3. -/
theorem C2_next_available_inode_first_fit :
    (∀ fm : FileManager,
        1 ≤ fm.next_available_inode
        ∧ fm.next_available_inode ∉ fm.node_ids.keys
        ∧ ∀ j, 1 ≤ j → j < fm.next_available_inode → j ∈ fm.node_ids.keys)
    ∧ fm124.next_available_inode = 3 := by
  constructor
  · intro fm
    refine ⟨fm.firstAvail_le _ 1, ?_, ?_⟩
    · intro hmem
      have hc := HMap.containsKey_iff_mem_keys.mpr hmem
      have hf : fm.node_ids.containsKey fm.next_available_inode = false :=
        fm.next_available_inode_free
      rw [hc] at hf
      exact absurd hf (by simp)
    · intro j h1 hlt
      exact HMap.containsKey_iff_mem_keys.mp
        (fm.firstAvail_contains_of_lt _ 1 j h1 hlt)
  · rfl

/-- Witness for C2 at a concrete input: in `fm124` the theorem forces
inode 2 (positive and below the allocated 3) to be registered. -/
theorem C2_next_available_inode_first_fit_witness : (2 : Nat) ∈ fm124.node_ids.keys :=
  (C2_next_available_inode_first_fit.1 fm124).2.2 2 (by decide) (by decide)

/-! ### C6: resolving `ByInode` -/

/-- **C6 counterexample**: in the freshly constructed manager no inode is
registered (`contains (ByInode 5)` is false), yet `get_inode (ByInode 5)`
still yields `some 5` instead of signalling not-found: resolution of
`ByInode` does not check presence in the inode table. -/
theorem C6_counterexample_get_inode_unconditional :
    (FileManager.empty exampleFacade).contains (FileId.Inode 5) = false
    ∧ (FileManager.empty exampleFacade).get_inode (FileId.Inode 5) = some 5 :=
  ⟨rfl, rfl⟩

/-- **C6 (amended)**: `get_inode (ByInode i)` yields `some i`
unconditionally — the `Inode` arm never consults a table. Presence in
the inode table is reported by `contains (ByInode i)` (membership in the
`node_ids` key set), and `get_file (ByInode i)` projects into the
`files` table, returning `none` for unregistered inodes. -/
theorem C6_get_inode_by_inode (fm : FileManager) (i : Nat) :
    fm.get_inode (FileId.Inode i) = some i
    ∧ (fm.contains (FileId.Inode i) = true ↔ i ∈ fm.node_ids.keys)
    ∧ fm.get_file (FileId.Inode i) = fm.files.get? i :=
  ⟨rfl, HMap.containsKey_iff_mem_keys, rfl⟩

/-! ### C5: `write` -/

/-- **C5**: `write id offset data` first resolves `id` to a remote id
(`get_drive_id`, i.e. resolve the identifier to a file and read its
remote descriptor). If resolution fails — the identifier does not
resolve, or the file has no remote descriptor — the call fails with no
successor state and `DriveFacade::write` is never invoked. Otherwise the
offset and bytes are forwarded verbatim to the facade (one new entry in
its write log) and no local state changes. -/
theorem C5_write_passthrough (fm : FileManager) (id : FileId) (offset : Nat)
    (data : List Nat) :
    (fm.get_drive_id id = none → fm.write id offset data = none)
    ∧ ∀ did, fm.get_drive_id id = some did →
        ∃ fm', fm.write id offset data = some fm'
          ∧ fm'.df.writeLog = fm.df.writeLog ++ [(did, offset, data)]
          ∧ fm'.df.rootId = fm.df.rootId
          ∧ fm'.tree = fm.tree
          ∧ fm'.files = fm.files
          ∧ fm'.node_ids = fm.node_ids
          ∧ fm'.drive_ids = fm.drive_ids := by
  constructor
  · intro h
    rw [FileManager.write, h]
  · intro did h
    refine ⟨{ fm with df := fm.df.write did offset data }, ?_, rfl, rfl, rfl, rfl, rfl, rfl⟩
    rw [FileManager.write, h]

/-- Witness for C5 (Scenario C of the spec): in `fmNoDrive`, inode 1 is
registered but carries no remote descriptor, so `write (ByInode 1)`
fails and produces no successor state. -/
theorem C5_write_passthrough_witness : fmNoDrive.write (FileId.Inode 1) 10 [1, 2] = none :=
  (C5_write_passthrough fmNoDrive (FileId.Inode 1) 10 [1, 2]).1 rfl

/-- Witness for C10 at a concrete input: adding `noDriveFile` as root of
a fresh manager satisfies the full frame condition. -/
theorem C10_add_file_frame_witness :
    AddFileFrame (FileManager.empty exampleFacade) fmNoDrive noDriveFile :=
  C10_add_file_frame noDriveFile none rfl

/-! ### C1: identical key sets -/

/-- **C1**: for every state reachable from a freshly constructed manager
by `add_file`/`create_file` operations (population performs exactly such
`add_file` steps), the key set of the inode→node-reference table
`node_ids` and the key set of the inode→File table `files` are
identical. -/
theorem C1_table_key_sets_identical {fm : FileManager} (h : Reachable fm) (i : Nat) :
    i ∈ fm.node_ids.keys ↔ i ∈ fm.files.keys :=
  (reachable_invariants h).keys_iff i

/-- Witness for C1 at a concrete reachable state (one `add_file`). -/
theorem C1_table_key_sets_identical_witness :
    (1 : Nat) ∈ fmNoDrive.node_ids.keys ↔ 1 ∈ fmNoDrive.files.keys :=
  C1_table_key_sets_identical
    (Reachable.add (Reachable.init exampleFacade)
      (show (FileManager.empty exampleFacade).add_file noDriveFile none = some fmNoDrive
        from rfl)) 1

/-! ### C3: remote-ID table -/

/-- a file named "a", inode 1, remote ID "X" -/
def dupA : File :=
  { name := "a", attr := attrOf 1 FileType.Directory, drive_file := some { id := some "X" } }

/-- a file named "b", inode 2, and the same remote ID "X" -/
def dupB : File :=
  { name := "b", attr := attrOf 2 FileType.RegularFile, drive_file := some { id := some "X" } }

/-- register `dupA` as root -/
def fmDup1 : FileManager :=
  ((FileManager.empty exampleFacade).add_file dupA none).getD (FileManager.empty exampleFacade)

/-- ... then register `dupB` (same remote ID "X") under it -/
def fmDup2 : FileManager :=
  (fmDup1.add_file dupB (some (FileId.Inode 1))).getD fmDup1

/-- **C3 counterexample**: `fmDup2` is reachable by two `add_file`
operations, registers the distinct inodes 1 and 2, and both File
entities carry a populated remote descriptor with the *same* remote ID
"X" — `add_file` never enforces remote-ID uniqueness across files, so
the claimed injectivity over File entities fails. -/
theorem C3_counterexample_duplicate_remote_id :
    Reachable fmDup2
    ∧ fmDup2.files.get? 1 = some dupA
    ∧ fmDup2.files.get? 2 = some dupB
    ∧ dupA.drive_id = some "X"
    ∧ dupB.drive_id = some "X"
    ∧ fmDup2.drive_ids.get? "X" = some 2 :=
  ⟨Reachable.add
      (Reachable.add (Reachable.init exampleFacade)
        (show (FileManager.empty exampleFacade).add_file dupA none = some fmDup1 from rfl))
      (show fmDup1.add_file dupB (some (FileId.Inode 1)) = some fmDup2 from rfl),
    rfl, rfl, rfl, rfl, rfl⟩

/-- **C3 (amended)**: in every reachable state the remote-ID→inode table
is a genuine partial map — its key list has no duplicates, so no remote
ID maps to two inodes — and every inode it maps to is registered in the
files table. The stronger reading of the claim is false: distinct
registered File entities may carry the same remote ID, the table then
recording only the most recently added inode for it (counterexample). -/
theorem C3_drive_ids_partial_map {fm : FileManager} (h : Reachable fm) :
    fm.drive_ids.keys.Nodup
    ∧ ∀ d i, fm.drive_ids.get? d = some i → i ∈ fm.files.keys :=
  ⟨(reachable_invariants h).nodup_drive, (reachable_invariants h).drive_vals⟩

/-- Witness for the amended C3 at the concrete reachable state `fmDup2`
(projected to the no-duplicate-keys part). -/
theorem C3_drive_ids_partial_map_witness : fmDup2.drive_ids.keys.Nodup :=
  (C3_drive_ids_partial_map
    (Reachable.add
      (Reachable.add (Reachable.init exampleFacade)
        (show (FileManager.empty exampleFacade).add_file dupA none = some fmDup1 from rfl))
      (show fmDup1.add_file dupB (some (FileId.Inode 1)) = some fmDup2 from rfl))).1

/-! ### C7: the rootless node -/

/-- the synthetic mount root a fresh manager would build: name ".",
inode 1, remote descriptor referencing the remote root ID -/
def rootFile : File :=
  (FileManager.empty exampleFacade).new_root_file

/-- a manager populated with the synthetic root only -/
def fmR1 : FileManager :=
  ((FileManager.empty exampleFacade).add_file rootFile none).getD
    (FileManager.empty exampleFacade)

/-- a second parentless file, inode 2 -/
def secondRoot : File :=
  { name := "z", attr := attrOf 2 FileType.Directory, drive_file := none }

/-- ... added with no parent on top of `fmR1` -/
def fmR2 : FileManager :=
  (fmR1.add_file secondRoot none).getD fmR1

/-- **C7 counterexample**: after registering the synthetic root (inode 1)
and then a second file with no parent (inode 2), the unique rootless
node of the reachable state `fmR2` carries inode 2 — and the first
file's node now *has* a parent. The root was replaced, refuting "the
rootless node is the first file ever registered and is never removed or
replaced". -/
theorem C7_counterexample_root_replaced :
    Reachable fmR2
    ∧ fmR1.tree.rootIdx = some 0
    ∧ fmR1.tree.nodes[0]? = some { data := 1, parent := none, children := [] }
    ∧ fmR2.tree.rootIdx = some 1
    ∧ fmR2.tree.nodes[1]? = some { data := 2, parent := none, children := [0] }
    ∧ fmR2.tree.nodes[0]? = some { data := 1, parent := some 1, children := [] } :=
  ⟨Reachable.add
      (Reachable.add (Reachable.init exampleFacade)
        (show (FileManager.empty exampleFacade).add_file rootFile none = some fmR1 from rfl))
      (show fmR1.add_file secondRoot none = some fmR2 from rfl),
    rfl, rfl, rfl, rfl, rfl⟩

/-- **C7 (amended)**: in every reachable state whose tree is non-empty
(i.e. a root index exists — true from the first registration on), the
node at the root index has no parent and every parentless node is the
root: exactly one tree node is rootless. But that node need not be the
first file ever registered: an `add_file` with no parent replaces the
root, demoting the previous root to a child of the new node
(counterexample). -/
theorem C7_single_rootless_node {fm : FileManager} (h : Reachable fm) {r : Nat}
    (hr : fm.tree.rootIdx = some r) :
    (fm.tree.nodes[r]?).map TreeNode.parent = some none
    ∧ ∀ idx nd, fm.tree.nodes[idx]? = some nd → nd.parent = none → idx = r := by
  have inv := reachable_invariants h
  constructor
  · have hlt := inv.root_lt r hr
    have hrn := List.getElem?_eq_getElem (l := fm.tree.nodes) hlt
    rw [hrn, Option.map_some']
    rw [(inv.root_iff r _ hrn).mpr hr]
  · intro idx nd hnd hp
    have h2 := (inv.root_iff idx nd hnd).mp hp
    rw [hr] at h2
    exact (show r = idx by simpa using h2).symm

/-- Witness for the amended C7 at the concrete reachable state `fmR2`
(projected to the root-is-parentless part). -/
theorem C7_single_rootless_node_witness :
    (fmR2.tree.nodes[1]?).map TreeNode.parent = some none :=
  (C7_single_rootless_node
    (Reachable.add
      (Reachable.add (Reachable.init exampleFacade)
        (show (FileManager.empty exampleFacade).add_file rootFile none = some fmR1 from rfl))
      (show fmR1.add_file secondRoot none = some fmR2 from rfl))
    rfl).1

/-! ### C9: `ByParentAndName` resolution -/

/-- **C9**: resolving `ByParentAndName parent nm` fails when the parent
inode is not in `node_ids`; given the parent's (File-table-filtered)
child list in tree order, it fails when no child is named `nm`, and
returns the inode of the *first* child named `nm` otherwise — a
duplicate-named later sibling is shadowed. -/
theorem C9_parent_and_name_first_match (fm : FileManager) (p : Nat) (nm : String) :
    (fm.node_ids.get? p = none → fm.get_inode (FileId.ParentAndName p nm) = none)
    ∧ ∀ l, fm.get_children (FileId.Inode p) = some l →
        ((∀ f ∈ l, f.name ≠ nm) → fm.get_inode (FileId.ParentAndName p nm) = none)
        ∧ (∀ l1 f l2, l = l1 ++ f :: l2 → f.name = nm → (∀ g ∈ l1, g.name ≠ nm) →
            fm.get_inode (FileId.ParentAndName p nm) = some f.inode) := by
  have hunfold : fm.get_inode (FileId.ParentAndName p nm)
      = ((fm.node_ids.get? p).bind fm.children_files).bind
          (fun children => (children.find? (fun child => child.name = nm)).map
            (fun child => child.inode)) := rfl
  have hchild : fm.get_children (FileId.Inode p)
      = (fm.node_ids.get? p).bind fm.children_files := rfl
  constructor
  · intro h
    rw [hunfold, h, Option.none_bind, Option.none_bind]
  · intro l hl
    rw [hchild] at hl
    constructor
    · intro hnone
      rw [hunfold, hl, Option.some_bind]
      have hfn : l.find? (fun child => child.name = nm) = none :=
        List.find?_eq_none.mpr (fun x hx => by simp [hnone x hx])
      rw [hfn]
      rfl
    · intro l1 f l2 heq hf hprev
      rw [hunfold, hl, Option.some_bind, heq]
      have h1 : l1.find? (fun child => child.name = nm) = none :=
        List.find?_eq_none.mpr (fun x hx => by simp [hprev x hx])
      have h2 : (f :: l2).find? (fun child => child.name = nm) = some f :=
        List.find?_cons_of_pos _ (by simp [hf])
      rw [List.find?_append, h1, h2, Option.none_or, Option.map_some']

/-- two same-named siblings, inodes 2 and 3 -/
def sibA : File :=
  { name := "x", attr := attrOf 2 FileType.RegularFile, drive_file := none }

def sibB : File :=
  { name := "x", attr := attrOf 3 FileType.RegularFile, drive_file := none }

def fmSib2 : FileManager :=
  (fmR1.add_file sibA (some (FileId.Inode 1))).getD fmR1

def fmSib3 : FileManager :=
  (fmSib2.add_file sibB (some (FileId.Inode 1))).getD fmSib2

/-- Witness for C9: with two siblings both named "x" (inodes 2 and 3, in
tree order), name resolution returns the first one's inode, 2. -/
theorem C9_parent_and_name_first_match_witness :
    fmSib3.get_inode (FileId.ParentAndName 1 "x") = some 2 :=
  ((C9_parent_and_name_first_match fmSib3 1 "x").2 [sibA, sibB] rfl).2
    [] sibA [sibB] rfl rfl (by simp)

/-! ### C4: `create_file` -/

/-- **C4**: with a file carrying a remote descriptor and a parent
identifier that resolves to a valid node (whose inode entry is `pIno`,
distinct from the new file's inode), `create_file` succeeds; the facade
`create` is invoked on the *pre-state* facade — the successor's facade
is exactly one `create` step from `fm.df`, so the remote call is ordered
before every local update — the remote ID it returned is attached to the
File entity, and after the local registration the file is stored under
its inode with that remote ID and is reachable by
`contains (ByParentAndName pIno name)`. (`hkc` is the files-table
key-consistency every reachable state enjoys.) -/
theorem C4_create_file_remote_first {fm : FileManager} {file : File} {d : DriveFile3}
    {pid : FileId} {pIno pIdx : Nat}
    (hkc : ∀ q ∈ fm.files, File.inode q.2 = q.1)
    (hdf : file.drive_file = some d)
    (hpid : fm.get_node_id pid = some pIdx)
    (hpIno : fm.node_ids.get? pIno = some pIdx)
    (hvalid : pIdx < fm.tree.nodes.length)
    (hne : pIno ≠ file.inode) :
    (fm.create_file file (some pid)).isSome = true
    ∧ ∀ fm', fm.create_file file (some pid) = some fm' →
        fm'.df = (fm.df.create d).2
        ∧ fm'.files.get? file.inode = some (file.set_drive_id (fm.df.create d).1)
        ∧ fm'.get_drive_id (FileId.Inode file.inode) = some (fm.df.create d).1
        ∧ fm'.contains (FileId.ParentAndName pIno file.name) = true := by
  have hcf : fm.create_file file (some pid)
      = FileManager.add_file { fm with df := (fm.df.create d).2 }
          (file.set_drive_id (fm.df.create d).1) (some pid) := by
    rw [FileManager.create_file, hdf]
  obtain ⟨t2, hins⟩ := IdTree.insertUnder_isSome fm.tree
    (file.set_drive_id (fm.df.create d).1).inode pIdx hvalid
  have hadd : FileManager.add_file { fm with df := (fm.df.create d).2 }
      (file.set_drive_id (fm.df.create d).1) (some pid)
      = some (FileManager.addTables
          { fm with df := (fm.df.create d).2, tree := t2 }
          (file.set_drive_id (fm.df.create d).1) fm.tree.nodes.length) :=
    FileManager.add_file_eq_of_parent
      (by rw [FileManager.get_node_id_df]; exact hpid) hins
  rw [hcf, hadd]
  refine ⟨rfl, ?_⟩
  intro fm' hfm'
  have hfm2 : fm' = FileManager.addTables
      { fm with df := (fm.df.create d).2, tree := t2 }
      (file.set_drive_id (fm.df.create d).1) fm.tree.nodes.length := by
    simpa using hfm'.symm
  subst hfm2
  obtain ⟨-, -, hnew, -, -, -, hpslot⟩ := fm.tree.insertUnder_spec _ _ hins
  have hpn := List.getElem?_eq_getElem (l := fm.tree.nodes) hvalid
  have hslot := hpslot _ hpn
  refine ⟨rfl, HMap.get?_insert_self _ _ _, ?_, ?_⟩
  · show ((FileManager.addTables { fm with df := (fm.df.create d).2, tree := t2 }
        (file.set_drive_id (fm.df.create d).1) fm.tree.nodes.length).files.get?
          file.inode).bind File.drive_id = some (fm.df.create d).1
    rw [show (FileManager.addTables { fm with df := (fm.df.create d).2, tree := t2 }
        (file.set_drive_id (fm.df.create d).1) fm.tree.nodes.length).files.get? file.inode
        = some (file.set_drive_id (fm.df.create d).1) from HMap.get?_insert_self _ _ _]
    rfl
  · exact FileManager.contains_pan_of_child
      (HMap.key_consistent_insert hkc _)
      (show (fm.node_ids.insert (file.set_drive_id (fm.df.create d).1).inode
          fm.tree.nodes.length).get? pIno = some pIdx by
        rw [HMap.get?_insert_ne _
          (show pIno ≠ (file.set_drive_id (fm.df.create d).1).inode from hne)]
        exact hpIno)
      (show t2.childrenOf pIdx
          = some ((fm.tree.nodes[pIdx]).children ++ [fm.tree.nodes.length]) by
        rw [IdTree.childrenOf, hslot]; rfl)
      (by simp)
      hnew
      (HMap.get?_insert_self _ _ _)
      rfl

/-- "c.txt", inode 2, with an (id-less) drive descriptor for `create` -/
def cFile : File :=
  { name := "c.txt", attr := attrOf 2 FileType.RegularFile, drive_file := some { id := none } }

def fmC4 : FileManager :=
  (fmR1.create_file cFile (some (FileId.Inode 1))).getD fmR1

/-- Witness for C4 (Scenario B of the spec): creating "c.txt" under the
root of `fmR1` registers it with the remote ID the facade `create`
returned ("c0"), and it is afterwards reachable by parent-and-name. -/
theorem C4_create_file_remote_first_witness :
    fmC4.df = (fmR1.df.create { id := none }).2
    ∧ fmC4.files.get? 2 = some (cFile.set_drive_id (fmR1.df.create { id := none }).1)
    ∧ fmC4.get_drive_id (FileId.Inode 2) = some (fmR1.df.create { id := none }).1
    ∧ fmC4.contains (FileId.ParentAndName 1 "c.txt") = true :=
  (C4_create_file_remote_first (by decide)
    (show cFile.drive_file = some { id := none } from rfl)
    (show fmR1.get_node_id (FileId.Inode 1) = some 0 from rfl)
    (show fmR1.node_ids.get? 1 = some 0 from rfl)
    (by decide) (by decide)).2 fmC4
    (show fmR1.create_file cFile (some (FileId.Inode 1)) = some fmC4 from rfl)

/-! ### C8: population attachment -/

/-- **C8 (amended)**: for a child listed under a popped remote container
id `parent_id`: when `parent_id` is registered (it maps to inode `pi`
whose node is `pIdx`), the child is attached as a new leaf under that
node and the root is untouched. When `parent_id` is *not* registered the
child is NOT attached as a second root-level node: it is inserted as the
new root — the tree's unique root index moves to the fresh node, whose
only child is the previous root, and the previous root's parent pointer
now points at the fresh node. -/
theorem C8_populate_child_attachment (fm : FileManager) (parent_id : String)
    (entry : DriveEntry) :
    (∀ pi pIdx, fm.drive_ids.get? parent_id = some pi →
        fm.node_ids.get? pi = some pIdx → pIdx < fm.tree.nodes.length →
        ∀ fm', fm.populateChild parent_id entry = some fm' →
          fm'.tree.rootIdx = fm.tree.rootIdx
          ∧ fm'.tree.nodes[fm.tree.nodes.length]?
              = some { data := (File.from_drive_file fm.next_available_inode entry).inode,
                       parent := some pIdx, children := [] })
    ∧ (fm.drive_ids.get? parent_id = none →
        ∀ r rn, fm.tree.rootIdx = some r → fm.tree.nodes[r]? = some rn →
        ∀ fm', fm.populateChild parent_id entry = some fm' →
          fm'.tree.rootIdx = some fm.tree.nodes.length
          ∧ fm'.tree.nodes[fm.tree.nodes.length]?
              = some { data := (File.from_drive_file fm.next_available_inode entry).inode,
                       parent := none, children := [r] }
          ∧ fm'.tree.nodes[r]? = some { rn with parent := some fm.tree.nodes.length }) := by
  constructor
  · intro pi pIdx hD hpi hvalid
    have hcont : fm.contains (FileId.DriveId parent_id) = true := by
      show (fm.drive_ids.get? parent_id).isSome = true
      rw [hD]
      rfl
    have hgn : fm.get_node_id (FileId.DriveId parent_id) = some pIdx := by
      show (fm.drive_ids.get? parent_id).bind (fun i => fm.node_ids.get? i) = some pIdx
      rw [hD, Option.some_bind]
      exact hpi
    obtain ⟨t2, hins⟩ := IdTree.insertUnder_isSome fm.tree
      (File.from_drive_file fm.next_available_inode entry).inode pIdx hvalid
    have hadd := FileManager.add_file_eq_of_parent hgn hins
    have hpc : fm.populateChild parent_id entry
        = fm.add_file (File.from_drive_file fm.next_available_inode entry)
            (some (FileId.DriveId parent_id)) := by
      rw [FileManager.populateChild, hcont]
      rfl
    rw [hpc, hadd]
    intro fm' hfm'
    have hfm2 : fm' = FileManager.addTables { fm with tree := t2 }
        (File.from_drive_file fm.next_available_inode entry) fm.tree.nodes.length := by
      simpa using hfm'.symm
    subst hfm2
    obtain ⟨-, -, hnew, hrootIdx, -, -, -⟩ := fm.tree.insertUnder_spec _ _ hins
    exact ⟨hrootIdx, hnew⟩
  · intro hD r rn hr hrn
    have hcont : fm.contains (FileId.DriveId parent_id) = false := by
      show (fm.drive_ids.get? parent_id).isSome = false
      rw [hD]
      rfl
    have hpc : fm.populateChild parent_id entry
        = fm.add_file (File.from_drive_file fm.next_available_inode entry) none := by
      rw [FileManager.populateChild, hcont]
      rfl
    rw [hpc, FileManager.add_file_eq_root]
    intro fm' hfm'
    have hfm2 : fm' = FileManager.addTables
        { fm with tree := (fm.tree.insertAsRoot
            (File.from_drive_file fm.next_available_inode entry).inode).2 }
        (File.from_drive_file fm.next_available_inode entry)
        (fm.tree.insertAsRoot
          (File.from_drive_file fm.next_available_inode entry).inode).1 := by
      simpa using hfm'.symm
    subst hfm2
    obtain ⟨-, -, hrootIdx2, -, -, -, hrepar⟩ := fm.tree.insertAsRoot_spec
      (File.from_drive_file fm.next_available_inode entry).inode
    obtain ⟨hreparR, hnewR⟩ := hrepar r rn hr hrn
    exact ⟨hrootIdx2, hnewR, hreparR⟩

/-- a listing entry ("a.txt", remote id "idA") -/
def entryC : DriveEntry :=
  { entryName := "a.txt", entryId := some "idA", isDir := false }

def fmPopA : FileManager :=
  (fmR1.populateChild "root" entryC).getD fmR1

def fmPopB : FileManager :=
  (fmR1.populateChild "unknown" entryC).getD fmR1

/-- Witness for C8: popping the registered remote id "root" attaches the
listed child (fresh inode 2) as a new leaf under the root's node 0. -/
theorem C8_populate_child_attachment_witness :
    fmPopA.tree.rootIdx = fmR1.tree.rootIdx
    ∧ fmPopA.tree.nodes[1]? = some { data := 2, parent := some 0, children := [] } :=
  (C8_populate_child_attachment fmR1 "root" entryC).1 1 0 rfl rfl (by decide) fmPopA
    (show fmR1.populateChild "root" entryC = some fmPopA from rfl)

/-- **C8 counterexample**: popping the unregistered remote id "unknown"
does NOT attach the child as a second root-level node: in the result the
child (inode 2, slot 1) is the unique root and the previous root (slot 0)
has acquired a parent — the old root hangs under the new node. -/
theorem C8_counterexample_new_root_not_second_root :
    fmR1.contains (FileId.DriveId "unknown") = false
    ∧ fmR1.tree.rootIdx = some 0
    ∧ fmPopB.tree.rootIdx = some 1
    ∧ fmPopB.tree.nodes[1]? = some { data := 2, parent := none, children := [0] }
    ∧ fmPopB.tree.nodes[0]? = some { data := 1, parent := some 1, children := [] } :=
  ⟨rfl, rfl, rfl, rfl, rfl⟩

end GCSF
